import Mathlib

/-!
# Verification of the wavify batch audio-conversion core

Shallow embedding of `src/main.rs` of the `wavify` repository: command-line
argument validation (`validate_args`), effective worker-count resolution
(the head of `process`), the per-file conversion task body (the closure
submitted to the thread pool), file discovery (`find_audio`), and the
deletion phase of `main`.  External collaborators (the `glob` matching
primitive and the `aus` codec) are modelled by their documented interfaces;
everything the repository's own code does is translated statement by
statement.
-/

set_option autoImplicit false

namespace Wavify

/-! ## Argument validation (`validate_args`, main.rs lines 103-146) -/

/-- Embeds the Rust struct `Args` (main.rs lines 103-107): the parsed run
configuration. -/
structure Args where
  folder : String
  num_threads : Nat
  delete : Bool
deriving DecidableEq, Repr

/-- Result of running `validate_args`.  The Rust function returns
`Option<Args>`; in addition, indexing `args[i+1]` past the end of the
vector panics, which we make explicit as a third outcome. -/
inductive VResult where
  | ok (a : Args)
  | invalid
  | panicked
deriving DecidableEq, Repr

/-- Reads a run of ASCII digits as a number, failing at the first
non-digit character. -/
def digitsVal : List Char → Nat → Option Nat
  | [], acc => some acc
  | c :: cs, acc =>
    if c.isDigit then digitsVal cs (acc * 10 + (c.toNat - 48)) else none

/-- Embeds Rust `str::parse::<usize>` on a 64-bit host: an optional leading
`+`, then one or more ASCII digits, and the value must fit in `usize`. -/
def parseUsize (s : String) : Option Nat :=
  let t :=
    match s.data with
    | '+' :: rest => rest
    | l => l
  match t with
  | [] => none
  | _ =>
    match digitsVal t 0 with
    | some n => if n < 2 ^ 64 then some n else none
    | none => none

/-- Embeds the `while i < args.len()` loop of `validate_args`
(main.rs lines 114-140), viewed from position `i` as recursion over the
remaining argument tokens.  Each arm mirrors one `match` arm of the source:
a value-taking flag reads `args[i+1]` (panicking if it is absent) and
advances by two, `-d`/`--delete` sets the flag and advances by one, and any
unrecognized token fails the whole validation. -/
def parseFlags : List String → Args → VResult
  | [], acc => .ok acc
  | a :: rest, acc =>
    if a = "-f" ∨ a = "--folder" then
      match rest with
      | v :: rest2 => parseFlags rest2 ⟨v, acc.num_threads, acc.delete⟩
      | [] => .panicked
    else if a = "-n" ∨ a = "--num-threads" then
      match rest with
      | v :: rest2 =>
        match parseUsize v with
        | some n => parseFlags rest2 ⟨acc.folder, n, acc.delete⟩
        | none => .invalid
      | [] => .panicked
    else if a = "-d" ∨ a = "--delete" then
      parseFlags rest ⟨acc.folder, acc.num_threads, true⟩
    else .invalid

/-- Embeds `validate_args` (main.rs lines 110-146): reject argument lists
longer than 6 tokens (program name included), otherwise run the parsing
loop from index 1 on the default configuration
`folder = ".", num_threads = 0, delete = false`. -/
def validate_args (args : List String) : VResult :=
  if args.length ≤ 6 then
    parseFlags (args.drop 1) ⟨".", 0, false⟩
  else .invalid

/-! ## Worker-count resolution (head of `process`, main.rs lines 48-57) -/

/-- Embeds the `match std::thread::available_parallelism()` at main.rs
lines 48-51: `Ok(x) => x.get()`, `Err(_) => 1`.  The `Ok` payload is a
`NonZeroUsize`, so a caller instantiates `some p` only with `1 ≤ p`. -/
def available_threads : Option Nat → Nat
  | some p => p
  | none => 1

/-- Embeds the worker-count resolution at main.rs lines 53-57:
`if max_num_threads < 1 { max_available_threads } else
{ usize::min(max_available_threads, max_num_threads) }`. -/
def num_threads (avail : Option Nat) (max_num_threads : Nat) : Nat :=
  let max_available_threads := available_threads avail
  if max_num_threads < 1 then max_available_threads
  else min max_available_threads max_num_threads

/-! ## Codec interface and the conversion task
(the closure at main.rs lines 64-97) -/

/-- Format tag of the external `aus` codec.  The core only ever assigns
`S16` (signed 16-bit integer PCM); the other tags stand for the remaining
sample formats the codec can report. -/
inductive AudioFormat where
  | S8
  | S16
  | S24
  | S32
  | F32
  | F64
deriving DecidableEq, Repr

/-- The fields of the codec's audio buffer that the core reads or writes
(main.rs lines 68-74), plus the sample data, which the core passes through
untouched. -/
structure AudioBuffer where
  bits_per_sample : Nat
  audio_format : AudioFormat
  sample_rate : Nat
  samples : List Int
deriving DecidableEq, Repr

/-- Embeds `aus::AudioError` (matched at main.rs lines 78-95): the failure
taxonomy surfaced by the codec. -/
inductive AudioError where
  | fileCorrupt
  | fileInaccessible (msg : String)
  | numChannels (msg : String)
  | numFrames (msg : String)
  | sampleValueOutOfRange (msg : String)
  | wrongFormat (msg : String)
deriving DecidableEq, Repr

/-- Embeds the metadata normalization inside the task closure
(main.rs lines 68-74): `if audio.bits_per_sample == 0` set depth 16 and
format `S16`; `if audio.sample_rate == 0` set rate 44100. -/
def normalize_audio (audio : AudioBuffer) : AudioBuffer :=
  let audio :=
    if audio.bits_per_sample = 0 then
      ⟨16, AudioFormat.S16, audio.sample_rate, audio.samples⟩
    else audio
  if audio.sample_rate = 0 then
    ⟨audio.bits_per_sample, audio.audio_format, 44100, audio.samples⟩
  else audio

/-- The externally observable outcome of one conversion task: either the
buffer written to the output path, or a reported read/write failure tagged
with the path it concerns. -/
inductive TaskOutcome where
  | wrote (path : String) (audio : AudioBuffer)
  | readFailed (path : String) (err : AudioError)
  | writeFailed (path : String) (err : AudioError)
deriving DecidableEq, Repr

/-- Embeds the body of the closure submitted to the pool
(main.rs lines 64-97), with the codec's `aus::read` and `aus::write`
abstracted as function arguments: read the source file, normalize the
buffer on success, write it to `{dir}/{name}.wav`, and report the outcome.
-/
def conversion_task (read : String → Except AudioError AudioBuffer)
    (write : String → AudioBuffer → Except AudioError Unit)
    (file dir name : String) : TaskOutcome :=
  match read file with
  | .ok audio =>
    let audio := normalize_audio audio
    let new_file_name := dir ++ "/" ++ name ++ ".wav"
    match write new_file_name audio with
    | .ok _ => .wrote new_file_name audio
    | .error err => .writeFailed new_file_name err
  | .error err => .readFailed file err

/-! ## Discovery (`find_audio`, main.rs lines 7-44) -/

/-- An operating-system string: either valid text or a byte sequence with
no text representation (Rust `OsStr` whose `to_str` is `None`). -/
inductive OsStrM where
  | valid (s : String)
  | invalid (bytes : List Nat)
deriving DecidableEq, Repr

/-- An operating-system path as a sequence of components
(Rust `PathBuf`); the last component of a file path is its file name. -/
structure OsPathM where
  components : List OsStrM
deriving DecidableEq, Repr

/-- Embeds Rust `OsStr::to_str`: `some` exactly when the string is valid
text. -/
def osStrToStr : OsStrM → Option String
  | .valid s => some s
  | .invalid _ => none

/-- Splits a character list at every occurrence of `c`; the result always
has one more piece than there are occurrences of `c`. -/
def splitOnChar (c : Char) : List Char → List (List Char)
  | [] => [[]]
  | x :: xs =>
    if x = c then [] :: splitOnChar c xs
    else
      match splitOnChar c xs with
      | [] => [[x]]
      | y :: ys => (x :: y) :: ys

/-- Joins character lists, interposing `c` between adjacent pieces
(the inverse of `splitOnChar`). -/
def joinChar (c : Char) : List (List Char) → List Char
  | [] => []
  | [x] => x
  | x :: xs => x ++ c :: joinChar c xs

/-- Whether the string `s` ends with the string `t`. -/
def strEndsWith (s t : String) : Bool :=
  t.data.isSuffixOf s.data

/-- Embeds Rust `Path::file_stem` on a valid file name: the whole name if
it holds no `.`, or begins with `.` and holds no other `.`; otherwise the
portion before the final `.`. -/
def rustFileStem (s : String) : String :=
  match splitOnChar '.' s.data with
  | [] => s
  | [_] => s
  | [[], _] => s
  | parts => ⟨joinChar '.' parts.dropLast⟩

/-- Embeds `path.file_stem()` (used at main.rs line 17): `none` for an
empty path, otherwise the stem of the final component; a component with no
text representation yields an `OsStr` that is itself unrepresentable. -/
def osFileStem (p : OsPathM) : Option OsStrM :=
  match p.components.getLast? with
  | some (.valid s) => some (.valid (rustFileStem s))
  | some (.invalid b) => some (.invalid b)
  | none => none

/-- Embeds `Path::to_str` on a whole path (used at main.rs lines 26-33):
`some` of the components joined by `/` exactly when every component is
valid text. -/
def osToStr (p : OsPathM) : Option String :=
  if p.components.all fun c => match c with
      | .valid _ => true
      | .invalid _ => false then
    some ⟨joinChar '/' (p.components.map fun c => match c with
      | .valid s => s.data
      | .invalid _ => [])⟩
  else none

/-- Embeds the loop body of `find_audio` for one `Ok(path)` glob entry
(main.rs lines 16-34): the file stem, the parent directory
(`path.clone()` then `pop()`), and the full path, each converted with
`to_str` and replaced by `""` when the conversion yields `None`; the
record is pushed as `(path, parent, file_name)`. -/
def recordOf (path : OsPathM) : String × String × String :=
  let file_name :=
    match osFileStem path with
    | some x =>
      match osStrToStr x with
      | some y => y
      | none => ""
    | none => ""
  let parent :=
    match osToStr ⟨path.components.dropLast⟩ with
    | some x => x
    | none => ""
  let pathS :=
    match osToStr path with
    | some x => x
    | none => ""
  (pathS, parent, file_name)

/-- Embeds the inner `for entry in paths` loop of `find_audio`
(main.rs lines 14-38): an `Ok` entry pushes its record, an `Err` entry is
skipped. -/
def processEntries : List (Except Unit OsPathM) → List (String × String × String)
  | [] => []
  | .ok p :: rest => recordOf p :: processEntries rest
  | .error _ :: rest => processEntries rest

/-- The fixed extension allow-list of `find_audio` (main.rs line 9). -/
def extensions : List String :=
  ["aif", "aiff", "mp3", "flac", "ogg", "aac", "m4a", "wma"]

/-- Embeds the outer `for extension in extensions` loop of `find_audio`
(main.rs lines 10-42) with the external `glob` call abstracted as an
oracle from `(directory, extension)` to either a pattern error or a list
of entries: a pattern error skips that extension's contribution. -/
def find_audio_go (globFn : String → String → Except Unit (List (Except Unit OsPathM)))
    (directory : String) : List String → List (String × String × String)
  | [] => []
  | ext :: rest =>
    (match globFn directory ext with
      | .ok entries => processEntries entries
      | .error _ => []) ++ find_audio_go globFn directory rest

/-- Embeds `find_audio` (main.rs lines 7-44): run the glob oracle over the
fixed extension list and collect the records in order. -/
def find_audio (globFn : String → String → Except Unit (List (Except Unit OsPathM)))
    (directory : String) : List (String × String × String) :=
  find_audio_go globFn directory extensions

/-- Whether a path matches the pattern `{directory}/**/*.{ext}`:
the glob matcher works on the path's text representation, so a path with
no text representation never matches, and the comparison is
case-sensitive. -/
def matchesExt (ext : String) (p : OsPathM) : Bool :=
  match osToStr p with
  | some s => strEndsWith s ("." ++ ext)
  | none => false

/-- Modelled from the spec: the external recursive glob matching
primitive (`glob::glob`, out of scope for the repository and "treated as
given").  Over a filesystem given as the list of file paths below the
scanned root, the pattern `{directory}/**/*.{ext}` enumerates, without
error, exactly the files whose textual path ends in `.{ext}`,
case-sensitively. -/
def globModel (fs : List OsPathM) :
    String → String → Except Unit (List (Except Unit OsPathM)) :=
  fun _ ext => .ok ((fs.filter (matchesExt ext)).map Except.ok)

/-- A glob oracle that yields a single matched path with no text
representation, for exercising the `None` branches of the loop body. -/
def badGlob : String → String → Except Unit (List (Except Unit OsPathM)) :=
  fun _ ext =>
    if ext = "aif" then .ok [.ok ⟨[.invalid [255]]⟩] else .ok []

/-! ## The deletion phase and the shape of `main`
(main.rs lines 148-174) -/

/-- Embeds the deletion loop of `main` (main.rs lines 166-171), with
`std::fs::remove_file` abstracted as a function argument; the result is
the ordered list of paths for which a deletion was attempted.  Both arms
of the `match` on the removal result continue identically: a per-file
deletion error is discarded. -/
def delete_files (remove_file : String → Except Unit Unit) :
    List (String × String × String) → List String
  | [] => []
  | f :: rest =>
    match remove_file f.1 with
    | .ok _ => f.1 :: delete_files remove_file rest
    | .error _ => f.1 :: delete_files remove_file rest

/-- Embeds the `if args.delete` gate of `main` (main.rs lines 164-172). -/
def delete_phase (delete : Bool) (remove_file : String → Except Unit Unit)
    (files : List (String × String × String)) : List String :=
  if delete then delete_files remove_file files else []

/-- The usage text printed by `main` when validation fails
(main.rs line 153). -/
def usage_message : String :=
  "Usage:\n-f folder_name -n num_threads\nOptional: include the -d flag to delete the original files when done."

/-- The observable outcome of one run of `main`: a usage error printing a
fixed message and doing nothing else, a crash of argument validation, or a
completed run described by the discovered work set and the list of paths
whose deletion was attempted. -/
inductive MainOutcome where
  | usageError (printed : String)
  | crashed
  | ran (files : List (String × String × String)) (deleted : List String)
deriving DecidableEq, Repr

/-- Embeds the control flow of `main` (main.rs lines 148-174): validate
the arguments, on failure print the usage message and return before any
discovery, conversion or deletion; otherwise discover the work set from
the configured folder, convert it, and delete the originals only when the
flag is set. -/
def main_model (argv : List String)
    (globFn : String → String → Except Unit (List (Except Unit OsPathM)))
    (remove_file : String → Except Unit Unit) : MainOutcome :=
  match validate_args argv with
  | .panicked => .crashed
  | .invalid => .usageError usage_message
  | .ok cfg =>
    let files := find_audio globFn cfg.folder
    .ran files (delete_phase cfg.delete remove_file files)

/-- A glob oracle over an empty filesystem. -/
def emptyGlob : String → String → Except Unit (List (Except Unit OsPathM)) :=
  fun _ _ => .ok []

/-- A removal primitive that always succeeds. -/
def okRemove : String → Except Unit Unit := fun _ => .ok ()

end Wavify


namespace Wavify

/-! ## Supporting lemmas -/

/-- The deletion loop attempts to remove exactly the work set's paths in
order, whatever the removal primitive returns for each of them. -/
theorem delete_files_eq (rm : String → Except Unit Unit) :
    ∀ files : List (String × String × String),
      delete_files rm files = files.map fun f => f.1
  | [] => rfl
  | f :: rest => by
    unfold delete_files
    cases rm f.1 <;> simp [delete_files_eq rm rest]

/-- Every record produced by the entry loop comes from an `Ok` glob
entry. -/
theorem mem_processEntries (r : String × String × String) :
    ∀ es : List (Except Unit OsPathM), r ∈ processEntries es →
      ∃ p, Except.ok p ∈ es ∧ r = recordOf p := by
  intro es
  induction es with
  | nil => intro h; exact absurd h (List.not_mem_nil r)
  | cons e rest ih =>
    cases e with
    | ok p =>
      intro h
      simp only [processEntries] at h
      rcases List.mem_cons.mp h with h1 | h2
      · exact ⟨p, List.mem_cons_self _ _, h1⟩
      · rcases ih h2 with ⟨q, hq, hr⟩
        exact ⟨q, List.mem_cons_of_mem _ hq, hr⟩
    | error u =>
      intro h
      simp only [processEntries] at h
      rcases ih h with ⟨q, hq, hr⟩
      exact ⟨q, List.mem_cons_of_mem _ hq, hr⟩

/-- Every `Ok` glob entry contributes its record to the entry loop's
output. -/
theorem processEntries_mem (p : OsPathM) :
    ∀ es : List (Except Unit OsPathM), Except.ok p ∈ es →
      recordOf p ∈ processEntries es := by
  intro es
  induction es with
  | nil => intro h; exact absurd h (List.not_mem_nil _)
  | cons e rest ih =>
    intro h
    rcases List.mem_cons.mp h with h1 | h2
    · rw [← h1]
      simp only [processEntries]
      exact List.mem_cons_self _ _
    · cases e with
      | ok q =>
        simp only [processEntries]
        exact List.mem_cons_of_mem _ (ih h2)
      | error u =>
        simp only [processEntries]
        exact ih h2

/-- The entry loop on a list of `Ok` entries maps `recordOf` over the
underlying paths. -/
theorem processEntries_map_ok :
    ∀ l : List OsPathM, processEntries (l.map Except.ok) = l.map recordOf
  | [] => rfl
  | p :: rest => by simp [processEntries, processEntries_map_ok rest]

/-- Every record returned by the extension loop comes from a successful
glob call on one of the listed extensions. -/
theorem mem_find_audio_go
    (globFn : String → String → Except Unit (List (Except Unit OsPathM)))
    (dir : String) (r : String × String × String) :
    ∀ exts : List String, r ∈ find_audio_go globFn dir exts →
      ∃ ext, ext ∈ exts ∧
        ∃ es, globFn dir ext = Except.ok es ∧ r ∈ processEntries es := by
  intro exts
  induction exts with
  | nil => intro h; exact absurd h (List.not_mem_nil r)
  | cons ext rest ih =>
    intro h
    simp only [find_audio_go] at h
    rcases List.mem_append.mp h with h1 | h2
    · cases hg : globFn dir ext with
      | ok es =>
        simp only [hg] at h1
        exact ⟨ext, List.mem_cons_self _ _, es, hg, h1⟩
      | error u =>
        simp only [hg] at h1
        exact absurd h1 (List.not_mem_nil r)
    · rcases ih h2 with ⟨e2, he2, es, hes, hr⟩
      exact ⟨e2, List.mem_cons_of_mem _ he2, es, hes, hr⟩

/-- A record produced from a successful glob call on a listed extension
appears in the extension loop's output. -/
theorem find_audio_go_mem
    (globFn : String → String → Except Unit (List (Except Unit OsPathM)))
    (dir ext : String) (es : List (Except Unit OsPathM))
    (r : String × String × String) (hglob : globFn dir ext = Except.ok es)
    (hr : r ∈ processEntries es) :
    ∀ exts : List String, ext ∈ exts → r ∈ find_audio_go globFn dir exts := by
  intro exts
  induction exts with
  | nil => intro h; exact absurd h (List.not_mem_nil ext)
  | cons e2 rest ih =>
    intro h
    simp only [find_audio_go, List.mem_append]
    rcases List.mem_cons.mp h with h1 | h2
    · left
      rw [← h1]
      simp only [hglob]
      exact hr
    · right
      exact ih h2

/-- The path field of a record is the path's text representation when
there is one. -/
theorem recordOf_fst (p : OsPathM) (s : String) (h : osToStr p = some s) :
    (recordOf p).1 = s := by
  simp [recordOf, h]

/-- The path field of a record is `""` when the path has no text
representation. -/
theorem recordOf_fst_none (p : OsPathM) (h : osToStr p = none) :
    (recordOf p).1 = "" := by
  simp [recordOf, h]

/-- A path matching the pattern for `ext` has a text representation that
ends in `.{ext}`. -/
theorem matchesExt_eq_true (ext : String) (p : OsPathM)
    (h : matchesExt ext p = true) :
    ∃ s, osToStr p = some s ∧ strEndsWith s ("." ++ ext) = true := by
  unfold matchesExt at h
  cases hs : osToStr p with
  | some s =>
    simp only [hs] at h
    exact ⟨s, rfl, h⟩
  | none =>
    simp only [hs] at h
    exact absurd h (by simp)

end Wavify
namespace Wavify

/-! ## Claims -/

/-- Claim C2: when the delete flag is set, the deletion phase after the
conversion run attempts a deletion for every path in the discovered work
set and only for paths in that set — the phase takes no per-file
conversion outcome into account, so records whose own conversion failed
are deleted too — each per-file deletion error is silently ignored
(the attempted paths do not depend on the removal primitive's results),
and with the flag unset nothing is deleted. -/
theorem claim_C2 (argv : List String)
    (globFn : String → String → Except Unit (List (Except Unit OsPathM)))
    (remove_file : String → Except Unit Unit) (cfg : Args)
    (h : validate_args argv = VResult.ok cfg) :
    main_model argv globFn remove_file =
      MainOutcome.ran (find_audio globFn cfg.folder)
        (if cfg.delete then (find_audio globFn cfg.folder).map (fun f => f.1)
         else []) := by
  simp only [main_model, h, delete_phase]
  cases hd : cfg.delete <;> simp [delete_files_eq]

/-- Witness for C2 at a concrete run with the delete flag set. -/
theorem claim_C2_witness :
    main_model ["wavify", "-d"] emptyGlob okRemove =
      MainOutcome.ran (find_audio emptyGlob ".")
        (if (true : Bool) then (find_audio emptyGlob ".").map (fun f => f.1)
         else []) :=
  claim_C2 ["wavify", "-d"] emptyGlob okRemove ⟨".", 0, true⟩ (by decide)

/-- Claim C3: for requested worker count `R` and available parallelism
`P ≥ 1`, the effective pool size is `P` when `R = 0` (and `1` when the
parallelism cannot be determined), `R` when `1 ≤ R < P`, and `P` when
`R ≥ P`; it is never zero and never exceeds `P`. -/
theorem claim_C3 (P R : Nat) (hP : 1 ≤ P) :
    (R = 0 → num_threads (some P) R = P) ∧
    num_threads none 0 = 1 ∧
    (1 ≤ R → R < P → num_threads (some P) R = R) ∧
    (P ≤ R → num_threads (some P) R = P) ∧
    1 ≤ num_threads (some P) R ∧ num_threads (some P) R ≤ P := by
  have e : ∀ r : Nat, num_threads (some P) r = if r < 1 then P else min P r :=
    fun _ => rfl
  refine ⟨fun h => ?_, rfl, fun h1 h2 => ?_, fun h => ?_, ?_, ?_⟩ <;>
    simp only [e] <;> split_ifs <;> omega

/-- Witness for C3 at `P = 4`, `R = 2`. -/
theorem claim_C3_witness :
    (2 = 0 → num_threads (some 4) 2 = 4) ∧
    num_threads none 0 = 1 ∧
    (1 ≤ 2 → 2 < 4 → num_threads (some 4) 2 = 2) ∧
    (4 ≤ 2 → num_threads (some 4) 2 = 4) ∧
    1 ≤ num_threads (some 4) 2 ∧ num_threads (some 4) 2 ≤ 4 :=
  claim_C3 4 2 (by decide)

/-- Claim C4 (evaluation at the failing inputs): when a value-taking flag
is the final argument with its required value missing, `validate_args`
does not fail cleanly — it reads `args[i+1]` past the end of the argument
vector and panics, instead of returning no configuration. -/
theorem claim_C4_eval :
    validate_args ["wavify", "-f"] = VResult.panicked ∧
    validate_args ["wavify", "--folder"] = VResult.panicked ∧
    validate_args ["wavify", "-n"] = VResult.panicked ∧
    validate_args ["wavify", "--num-threads"] = VResult.panicked ∧
    validate_args ["wavify", "-d", "-f"] = VResult.panicked := by
  decide

/-- Counterexample to claim C8: `-f a -n 2 -d` holds three flags, more
than two, yet `validate_args` accepts it (the guard only rejects argument
lists longer than 6 tokens). -/
theorem claim_C8_cex :
    validate_args ["wavify", "-f", "a", "-n", "2", "-d"] =
      VResult.ok ⟨"a", 2, true⟩ ∧
    validate_args ["wavify", "-f", "a", "-n", "2", "-d"] ≠ VResult.invalid := by
  decide

/-- Claim C8 as amended: `validate_args` fails as a whole, with no partial
configuration, exactly when the argument list is longer than the fixed
bound of 6 tokens (program name included, i.e. more than 5 flag tokens);
within the bound even three flags can be accepted. -/
theorem claim_C8 (args : List String) (h : 6 < args.length) :
    validate_args args = VResult.invalid := by
  unfold validate_args
  rw [if_neg (by omega)]

/-- Witness for C8 on a 7-token argument list. -/
theorem claim_C8_witness :
    validate_args ["wavify", "-f", "a", "-n", "2", "-d", "-d"] =
      VResult.invalid :=
  claim_C8 ["wavify", "-f", "a", "-n", "2", "-d", "-d"] (by decide)

/-- Claim C10: a repeated value flag overwrites the earlier occurrence
(the last one wins), and the token immediately following a value-taking
flag is always consumed as its value even when that token is itself a
recognized flag (`-f -d` yields folder `-d` with delete still false). -/
theorem claim_C10 (a b : String) (acc : Args) :
    parseFlags ["-f", a, "-f", b] acc =
      VResult.ok ⟨b, acc.num_threads, acc.delete⟩ ∧
    validate_args ["wavify", "-f", a, "-f", b] = VResult.ok ⟨b, 0, false⟩ ∧
    validate_args ["wavify", "-f", "-d"] = VResult.ok ⟨"-d", 0, false⟩ :=
  ⟨rfl, rfl, rfl⟩

end Wavify
namespace Wavify

/-- Counterexample to claim C5: a matched path with no text
representation is not excluded — `find_audio` returns the record
`("", "", "")` for it. -/
theorem claim_C5_cex :
    find_audio badGlob "." = [("", "", "")] ∧ find_audio badGlob "." ≠ [] := by
  decide

/-- Claim C5 as amended: a matched path whose components cannot be
represented as valid text is not excluded from the result — `find_audio`
still pushes a record for it, with the empty string standing in for its
unrepresentable path field. -/
theorem claim_C5
    (globFn : String → String → Except Unit (List (Except Unit OsPathM)))
    (dir ext : String) (p : OsPathM) (entries : List (Except Unit OsPathM))
    (hext : ext ∈ extensions) (hglob : globFn dir ext = Except.ok entries)
    (hp : Except.ok p ∈ entries) (hbad : osToStr p = none) :
    (recordOf p).1 = "" ∧ recordOf p ∈ find_audio globFn dir := by
  refine ⟨recordOf_fst_none p hbad, ?_⟩
  exact find_audio_go_mem globFn dir ext entries (recordOf p) hglob
    (processEntries_mem p entries hp) extensions hext

/-- Witness for C5 at a glob oracle yielding one unrepresentable path. -/
theorem claim_C5_witness :
    (recordOf ⟨[OsStrM.invalid [255]]⟩).1 = "" ∧
    recordOf ⟨[OsStrM.invalid [255]]⟩ ∈ find_audio badGlob "." :=
  claim_C5 badGlob "." "aif" ⟨[OsStrM.invalid [255]]⟩
    [Except.ok ⟨[OsStrM.invalid [255]]⟩]
    (by decide) rfl (List.mem_cons_self _ _) rfl

/-- Claim C6: for every successfully decoded buffer, the conversion task
normalizes the sentinels before encoding — a zero bit depth becomes 16
with the format tag set to signed 16-bit integer PCM, a zero sample rate
becomes 44100, nonzero values pass through unchanged in those fields, the
sample data is untouched, and the buffer handed to the encoder is exactly
the normalized one. -/
theorem claim_C6 (audio : AudioBuffer) :
    (audio.bits_per_sample = 0 →
      (normalize_audio audio).bits_per_sample = 16 ∧
      (normalize_audio audio).audio_format = AudioFormat.S16) ∧
    (audio.sample_rate = 0 → (normalize_audio audio).sample_rate = 44100) ∧
    (audio.bits_per_sample ≠ 0 →
      (normalize_audio audio).bits_per_sample = audio.bits_per_sample ∧
      (normalize_audio audio).audio_format = audio.audio_format) ∧
    (audio.sample_rate ≠ 0 →
      (normalize_audio audio).sample_rate = audio.sample_rate) ∧
    (normalize_audio audio).samples = audio.samples ∧
    ∀ (write : String → AudioBuffer → Except AudioError Unit)
      (file dir name : String),
      conversion_task (fun _ => Except.ok audio) write file dir name =
        match write (dir ++ "/" ++ name ++ ".wav") (normalize_audio audio) with
        | .ok _ =>
          TaskOutcome.wrote (dir ++ "/" ++ name ++ ".wav")
            (normalize_audio audio)
        | .error err =>
          TaskOutcome.writeFailed (dir ++ "/" ++ name ++ ".wav") err := by
  obtain ⟨b, fmt, r, smp⟩ := audio
  refine ⟨fun hb => ?_, fun hr => ?_, fun hb => ?_, fun hr => ?_, ?_,
    fun write file dir name => rfl⟩
  · subst hb
    by_cases hr : r = 0 <;> simp [normalize_audio, hr]
  · subst hr
    by_cases hb : b = 0 <;> simp [normalize_audio, hb]
  · by_cases hr : r = 0 <;> simp [normalize_audio, hb, hr]
  · by_cases hb : b = 0 <;> simp [normalize_audio, hb, hr]
  · by_cases hb : b = 0 <;> by_cases hr : r = 0 <;>
      simp [normalize_audio, hb, hr]

/-- Witness for C6 at a buffer with both sentinels set. -/
theorem claim_C6_witness :
    (normalize_audio ⟨0, AudioFormat.F32, 0, [1]⟩).bits_per_sample = 16 ∧
    (normalize_audio ⟨0, AudioFormat.F32, 0, [1]⟩).audio_format =
      AudioFormat.S16 ∧
    (normalize_audio ⟨0, AudioFormat.F32, 0, [1]⟩).sample_rate = 44100 := by
  have h := claim_C6 ⟨0, AudioFormat.F32, 0, [1]⟩
  exact ⟨(h.1 rfl).1, (h.1 rfl).2, h.2.1 rfl⟩

/-- Claim C7: over the modelled glob primitive, every record returned by
discovery comes from a filesystem entry matching one of the eight fixed
extensions `aif, aiff, mp3, flac, ogg, aac, m4a, wma`, with the record's
path ending in that extension; the match is case-sensitive, so a file
named `x.MP3` is never included. -/
theorem claim_C7 (fs : List OsPathM) (dir : String) :
    (∀ r ∈ find_audio (globModel fs) dir,
      ∃ p, p ∈ fs ∧ ∃ ext, ext ∈ extensions ∧ matchesExt ext p = true ∧
        r = recordOf p ∧ strEndsWith r.1 ("." ++ ext) = true) ∧
    find_audio (globModel [⟨[OsStrM.valid "x.MP3"]⟩]) dir = [] := by
  constructor
  · intro r hr
    rcases mem_find_audio_go (globModel fs) dir r extensions hr with
      ⟨ext, hext, es, hes, hre⟩
    have h2 : es = (fs.filter (matchesExt ext)).map Except.ok := by
      have h3 : (Except.ok es :
          Except Unit (List (Except Unit OsPathM))) =
          Except.ok ((fs.filter (matchesExt ext)).map Except.ok) := by
        rw [← hes]
        rfl
      injection h3
    subst h2
    rw [processEntries_map_ok] at hre
    rcases List.mem_map.mp hre with ⟨p, hpf, hrp⟩
    rcases List.mem_filter.mp hpf with ⟨hpfs, hpm⟩
    rcases matchesExt_eq_true ext p hpm with ⟨s, hs, hend⟩
    refine ⟨p, hpfs, ext, hext, hpm, hrp.symm, ?_⟩
    rw [← hrp, recordOf_fst p s hs]
    exact hend
  · rfl

/-- Witness for C7 at a one-file filesystem holding `a/x.mp3`. -/
theorem claim_C7_witness :
    ∃ p, p ∈ [(⟨[OsStrM.valid "a", OsStrM.valid "x.mp3"]⟩ : OsPathM)] ∧
      ∃ ext, ext ∈ extensions ∧ matchesExt ext p = true ∧
        ("a/x.mp3", "a", "x") = recordOf p ∧
        strEndsWith ("a/x.mp3", "a", "x").1 ("." ++ ext) = true :=
  (claim_C7 [⟨[OsStrM.valid "a", OsStrM.valid "x.mp3"]⟩] ".").1
    ("a/x.mp3", "a", "x") (by decide)

/-- Counterexample to claim C9: the fixed usage message printed on
invalid arguments has three lines, not two. -/
theorem claim_C9_cex :
    main_model ["wavify", "--bogus"] emptyGlob okRemove =
      MainOutcome.usageError usage_message ∧
    (splitOnChar '\n' usage_message.data).length = 3 ∧
    (splitOnChar '\n' usage_message.data).length ≠ 2 := by
  decide

/-- Claim C9 as amended: for every argument list that fails validation,
`main` prints the fixed usage message — which has three lines, not two —
to standard output and returns without doing any work: no discovery, no
conversion dispatch, and no deletion occur. -/
theorem claim_C9 (argv : List String)
    (globFn : String → String → Except Unit (List (Except Unit OsPathM)))
    (remove_file : String → Except Unit Unit)
    (h : validate_args argv = VResult.invalid) :
    main_model argv globFn remove_file =
      MainOutcome.usageError usage_message ∧
    (splitOnChar '\n' usage_message.data).length = 3 := by
  refine ⟨?_, by decide⟩
  simp only [main_model, h]

/-- Witness for C9 at the unknown flag `--bogus`. -/
theorem claim_C9_witness :
    main_model ["wavify", "--bogus"] emptyGlob okRemove =
      MainOutcome.usageError usage_message ∧
    (splitOnChar '\n' usage_message.data).length = 3 :=
  claim_C9 ["wavify", "--bogus"] emptyGlob okRemove (by decide)

end Wavify
